import Mathlib

/-!
# Verification of the MediaEditor core engine

Shallow embedding, in Lean 4, of the parts of the MediaEditor engine that the
specification talks about:

* `MEC.EventStack` — the event-stack filter from `EventStackFilter.cpp`
  (`EventStack_Base::AddNewEvent`, `ChangeEventRange`, `MoveEvent`,
  `MoveAllEvents`, `EnrollEvent`, `RemoveEvent`, `GetEvent`, and the video
  filter's `FilterImage` / `VideoEvent_Impl::SaveMask`).
* `DataLayer.VideoTrack` — the timeline track from `VideoTrack.cpp`
  (`InsertClip`, `MoveClip`, `ChangeClipRange`, `RemoveClipById`,
  `CheckClipRangeValid`, `UpdateClipOverlap`, `ReadVideoFrame`).
* The async-seek frame cache of `MediaPlayer_FFImpl.cpp`
  (`RenderThreadProc_SeekAsync`).
* `MEC.Project` from `MecProject.cpp` (`Save`, `Close`).

Timeline positions are `Int` (the source uses `int64_t` milliseconds, far from
overflow in every intended use). C++ `double` timestamps are embedded as `ℚ`;
the `int64_t` cast of a `double` quotient is embedded as `Int.tdiv`
(truncation toward zero).
-/

namespace MEC

/-- An event record, the data of `Event_Base` in `EventStackFilter.cpp`:
id, start, end (here `stop`, because `end` is a Lean keyword) and z layer.
The blueprint, key-point curves and status bits are orthogonal to the
stack-structure claims and are not part of this record. -/
structure EvtRec where
  id : Int
  start : Int
  stop : Int
  z : Int
deriving DecidableEq, Repr

/-- Modelled from the spec: `Event::CheckEventOverlapped` is declared in
`EventStackFilter.h`, which is not among the provided sources. Per the spec,
two ranges at the same `z` overlap iff `¬(a.end ≤ b.start ∨ b.end ≤ a.start)`,
and events at different `z` never conflict. -/
def checkEventOverlapped (e : EvtRec) (start stop : Int) (z : Int) : Bool :=
  e.z = z && !(decide (e.stop ≤ start) || decide (stop ≤ e.start))

/-- Modelled from the spec: `Event::EVENT_ORDER_COMPARATOR` is declared in
`EventStackFilter.h`, not among the provided sources. Per the spec the event
list is kept sorted by `(z asc, start asc)`. -/
def eventOrderLe (a b : EvtRec) : Bool :=
  decide (a.z < b.z) || (a.z = b.z && decide (a.start ≤ b.start))

/-- Stable insertion of one element into a list, placing it after every
element that compares `≤` to it.  Folding this over a list reproduces the
result of C++ `std::list::sort` (a stable sort) with the corresponding
strict comparator. -/
def insertStable (le : α → α → Bool) (x : α) : List α → List α
  | [] => [x]
  | y :: ys => if le y x then y :: insertStable le x ys else x :: y :: ys

/-- Stable sort: the embedding of C++ `std::list::sort`. -/
def sortStable (le : α → α → Bool) (l : List α) : List α :=
  l.foldl (fun acc x => insertStable le x acc) []

/-- The mutable state of `EventStack_Base`: the event list, the error string
`m_errMsg` and `m_editingEventId`. -/
structure Stack where
  events : List EvtRec
  errMsg : String
  editingEventId : Int
deriving DecidableEq, Repr

/-- A freshly constructed event stack. -/
def emptyStack : Stack := ⟨[], "", -1⟩

/-- Error message produced by `EventStack_Base::GetEvent` on a miss. -/
def getEventErrMsg (id : Int) : String :=
  "CANNOT find event with id '" ++ toString id ++ "'!"

/-- `EventStack_Base::GetEvent`: find the first event with the given id;
on a miss, set `m_errMsg` and return null. -/
def getEvent (s : Stack) (id : Int) : Option EvtRec × Stack :=
  match s.events.find? (fun e => e.id = id) with
  | some e => (some e, s)
  | none => (none, { s with errMsg := getEventErrMsg id })

/-- `EventStack_Base::AddNewEvent`.  Returns the created event (or null) and
the updated stack state.  The argument checks, the silent swap of a reversed
range, the overlap scan and the sorted insertion all mirror the source. -/
def addNewEvent (s : Stack) (id start stop z : Int) : Option EvtRec × Stack :=
  if start = stop then
    (none, { s with errMsg := "IVALID arguments! 'start' and 'end' CANNOT be IDENTICAL." })
  else
    match getEvent s id with
    | (some _, _) =>
      (none, { s with errMsg := "IVALID arguments! Event with id '" ++ toString id ++ "' already exists." })
    | (none, s1) =>
      let start' := if stop < start then stop else start
      let stop' := if stop < start then start else stop
      if s1.events.any (fun e => checkEventOverlapped e start' stop' z) then
        (none, { s1 with errMsg := "INVALID arguments! Event range has overlap with the existing ones." })
      else
        let hEvt : EvtRec := ⟨id, start', stop', z⟩
        (some hEvt, { s1 with events := sortStable eventOrderLe (s1.events ++ [hEvt]) })

/-- `EventStack_Base::RemoveEvent`: erase the first event with the given id;
if there is none, do nothing at all. -/
def removeEvent (s : Stack) (id : Int) : Stack :=
  match s.events.find? (fun e => e.id = id) with
  | some _ => { s with events := s.events.eraseP (fun e => e.id = id) }
  | none => s

/-- Replace the first element satisfying `p` (the object found by `GetEvent`,
which the C++ code then mutates in place). -/
def updateFirst (p : α → Bool) (f : α → α) : List α → List α
  | [] => []
  | x :: xs => if p x then f x :: xs else x :: updateFirst p f xs

/-- `EventStack_Base::ChangeEventRange`. -/
def changeEventRange (s : Stack) (id start stop : Int) : Bool × Stack :=
  if start = stop then
    (false, { s with errMsg := "IVALID arguments! 'start' and 'end' CANNOT be IDENTICAL." })
  else
    let start' := if stop < start then stop else start
    let stop' := if stop < start then start else stop
    match getEvent s id with
    | (none, s1) => (false, s1)
    | (some e, s1) =>
      if s1.events.any (fun o => o.id ≠ id && checkEventOverlapped o start' stop' e.z) then
        (false, { s1 with errMsg := "INVALID arguments! Event range has overlap with the existing ones." })
      else
        let events' := sortStable eventOrderLe
          (updateFirst (fun o => o.id = id) (fun o => { o with start := start', stop := stop' }) s1.events)
        (true, { s1 with events := events' })

/-- `EventStack_Base::MoveEvent`: keep the event's length, move it to a new
start and z, re-validating against the other events. -/
def moveEvent (s : Stack) (id start z : Int) : Bool × Stack :=
  match getEvent s id with
  | (none, s1) => (false, s1)
  | (some e, s1) =>
    let stop := e.stop + (start - e.start)
    if s1.events.any (fun o => o.id ≠ id && checkEventOverlapped o start stop z) then
      (false, { s1 with errMsg := "INVALID arguments! Event range has overlap with the existing ones." })
    else
      let events' := sortStable eventOrderLe
        (updateFirst (fun o => o.id = id) (fun o => { o with start := start, stop := stop, z := z }) s1.events)
      (true, { s1 with events := events' })

/-- `EventStack_Base::MoveAllEvents`: shift every event by the same offset. -/
def moveAllEvents (s : Stack) (offset : Int) : Bool × Stack :=
  (true, { s with events := s.events.map (fun e => { e with start := e.start + offset, stop := e.stop + offset }) })

/-- The single scan of `EventStack_Base::EnrollEvent`: for each existing
event, first the duplicate-id test, then the overlap test; the first failure
produces the corresponding error message. -/
def enrollScan (h : EvtRec) : List EvtRec → Option String
  | [] => none
  | e :: es =>
    if e.id = h.id then
      some ("Duplicated id! Already contained an event with id '" ++ toString h.id ++ "'.")
    else if checkEventOverlapped e h.start h.stop h.z then
      some "Can not enroll this event! It has overlap with the existing ones."
    else enrollScan h es

/-- `EventStack_Base::EnrollEvent`: the JSON-restore path.  Scans the existing
events; a duplicate id or an overlap rejects the candidate, otherwise it is
inserted in sorted order. -/
def enrollEvent (s : Stack) (h : EvtRec) : Bool × Stack :=
  match enrollScan h s.events with
  | some msg => (false, { s with errMsg := msg })
  | none => (true, { s with events := sortStable eventOrderLe (s.events ++ [h]) })

/-- `Event_Base::IsInRange`: `pos >= m_start && pos < m_end`. -/
def isInRange (e : EvtRec) (pos : Int) : Bool :=
  decide (pos ≥ e.start) && decide (pos < e.stop)

/-- A video event of the stack: its record plus the frame transform performed
by `VideoEvent_Impl::FilterImage` (blueprint run plus optional mask blend),
which is opaque to the engine — `Frame` stands for `ImGui::ImMat`, here an
arbitrary payload `Int`. The transform receives the current frame and the
event-relative position `pos - start`. -/
structure VEvt where
  evt : EvtRec
  transform : Int → Int → Int

/-- `VideoEventStackFilter_Impl::FilterImage`: collect the events whose range
contains `pos` (in stack order), then chain each event's transform over the
incoming frame, feeding each output to the next event at relative position
`pos - event.start`. -/
def filterImage (events : List VEvt) (vmat : Int) (pos : Int) : Int :=
  let effectiveEvents := events.filter (fun e => isInRange e.evt pos)
  effectiveEvents.foldl (fun m e => e.transform m (pos - e.evt.start)) vmat

/-- The mask state of a `VideoEvent_Impl`: the descriptor array
`m_ajnEventMasks` and the rendered alpha array `m_amEventMasks` (descriptors
and images are opaque `Int` payloads). -/
structure MaskState where
  ajnMasks : List Int
  amMasks : List Int
deriving DecidableEq, Repr

/-- The C++ comparison `index > ajnMasks.size()` where `index` is a signed
`int` and `size()` an unsigned `size_t`: the usual arithmetic conversions
turn `index` into its value modulo `2^64` before the unsigned comparison. -/
def cppSignedGtSize (index : Int) (size : Nat) : Bool :=
  decide ((index % (2 ^ 64 : Int)).toNat > size)

/-- `VideoEvent_Impl::SaveMask(j, pmMask, index)`.  `render` stands for the
opaque `MaskCreator::LoadFromJson(j)->GetMask(...)` rendering used when no
pre-rendered mask is supplied.  Returns the success flag and the new mask
state.  The first guard is the (signed vs. unsigned) C++ comparison
`index > ajnMasks.size()`. -/
def saveMask (render : Int → Int) (st : MaskState) (j : Int) (pmMask : Option Int)
    (index : Int) : Bool × MaskState :=
  if cppSignedGtSize index st.ajnMasks.length then
    (false, st)
  else
    let mMask := match pmMask with
      | some m => m
      | none => render j
    if index < 0 ∨ index = st.ajnMasks.length then
      (true, { ajnMasks := st.ajnMasks ++ [j], amMasks := st.amMasks ++ [mMask] })
    else
      (true, { ajnMasks := st.ajnMasks.set index.toNat j, amMasks := st.amMasks.set index.toNat mMask })

end MEC

namespace DataLayer

/-- A clip on a track. `id`, `trackId` and `start` are the fields the track
code manipulates directly.  Modelled from the spec: `VideoClip` itself is not
among the provided sources; per the spec a clip carries its source duration
and the two source offsets, with `duration = sourceDuration − startOffset −
endOffset` and `end = start + duration`. -/
structure Clip where
  id : Int
  trackId : Int
  start : Int
  srcDur : Int
  startOffset : Int
  endOffset : Int
deriving DecidableEq, Repr

/-- Modelled from the spec: `VideoClip::Duration()` is
`sourceDuration − startOffset − endOffset`. -/
def Clip.length (c : Clip) : Int := c.srcDur - c.startOffset - c.endOffset

/-- Modelled from the spec: `VideoClip::End()` is `start + duration`. -/
def Clip.stop (c : Clip) : Int := c.start + c.length

/-- An overlap record of the track (`VideoOverlap`): the ids of its two
member clips and its derived time bounds.  Modelled from the spec where
`VideoOverlap.cpp` is not among the provided sources: bounds are
`start = max(a.start, b.start)`, `end = min(a.end, b.end)`. -/
structure Ovlp where
  aId : Int
  bId : Int
  start : Int
  stop : Int
deriving DecidableEq, Repr

/-- Modelled from the spec: `VideoOverlap::HasOverlap` — two clips overlap
iff their time intersection is non-empty. -/
def hasOverlap (a b : Clip) : Bool :=
  decide (max a.start b.start < min a.stop b.stop)

/-- The comparator `VideoTrack::CLIP_SORT_CMP` (`a.start < b.start`), as the
non-strict reflection used by the stable-sort embedding. -/
def clipLe (a b : Clip) : Bool := decide (a.start ≤ b.start)

/-- The comparator `VideoTrack::OVERLAP_SORT_CMP`. -/
def ovlpLe (a b : Ovlp) : Bool := decide (a.start ≤ b.start)

/-- The state of a `VideoTrack`: its id, the clip list `m_clips` (kept sorted
by start), the overlap list `m_overlaps` and the cached `m_duration`.
Output size, frame rate and the read cursors are carried separately by
`TrackReadState`. -/
structure Track where
  id : Int
  clips : List Clip
  overlaps : List Ovlp
  duration : Int
deriving DecidableEq, Repr

/-- A freshly constructed, empty track. -/
def emptyTrack (id : Int) : Track := ⟨id, [], [], 0⟩

/-- Find a clip by id (`VideoTrack::GetClipById`). -/
def clipById (clips : List Clip) (id : Int) : Option Clip :=
  clips.find? (fun c => c.id = id)

/-- `start + duration` of the last clip of the (start-sorted) list — the
value the source assigns to `m_duration` — or 0 for an empty list. -/
def lastClipEnd (clips : List Clip) : Int :=
  match clips.getLast? with
  | some c => c.stop
  | none => 0

/-- `VideoTrack::CheckClipRangeValid`: the candidate range is invalid iff one
of its endpoints lies strictly inside an overlap that does not involve the
candidate clip itself. -/
def checkClipRangeValid (ovlps : List Ovlp) (clipId start stop : Int) : Bool :=
  ovlps.all (fun o =>
    (clipId = o.aId || clipId = o.bId) ||
    !((decide (start > o.start) && decide (start < o.stop)) ||
      (decide (stop > o.start) && decide (stop < o.stop))))

/-- First phase of `VideoTrack::UpdateClipOverlap`: drop overlaps whose
members left the track, refresh (and drop when empty) the overlaps involving
the updated clip. -/
def processOverlaps (clips : List Clip) (updId : Int) : List Ovlp → List Ovlp
  | [] => []
  | o :: os =>
    match clipById clips o.aId, clipById clips o.bId with
    | some a, some b =>
      if o.aId = updId || o.bId = updId then
        let s := max a.start b.start
        let e := min a.stop b.stop
        if e - s ≤ 0 then processOverlaps clips updId os
        else ⟨o.aId, o.bId, s, e⟩ :: processOverlaps clips updId os
      else o :: processOverlaps clips updId os
    | _, _ => processOverlaps clips updId os

/-- Second phase of `VideoTrack::UpdateClipOverlap`: for every other clip of
the track overlapping the updated clip, add a new overlap record unless the
pair already has one. -/
def addNewOverlaps (c : Clip) (clips : List Clip) (acc : List Ovlp) : List Ovlp :=
  clips.foldl (fun acc o =>
    if o.id = c.id then acc
    else if hasOverlap c o &&
        !(acc.any (fun v => (v.aId = c.id && v.bId = o.id) || (v.aId = o.id && v.bId = c.id))) then
      acc ++ [⟨c.id, o.id, max c.start o.start, min c.stop o.stop⟩]
    else acc) acc

/-- `VideoTrack::UpdateClipOverlap`. -/
def updateClipOverlap (clips : List Clip) (ovlps : List Ovlp) (c : Clip)
    (remove : Bool) : List Ovlp :=
  let processed := processOverlaps clips c.id ovlps
  let added := if remove then processed else addNewOverlaps c clips processed
  MEC.sortStable ovlpLe added

/-- `VideoTrack::InsertClip`.  A range failing `CheckClipRangeValid` throws
`invalid_argument`, embedded as `Except.error`. -/
def insertClip (t : Track) (c : Clip) : Except String Track :=
  if !checkClipRangeValid t.overlaps c.id c.start c.stop then
    Except.error "Invalid argument for inserting clip!"
  else
    let c' := { c with trackId := t.id }
    let clips := MEC.sortStable clipLe (t.clips ++ [c'])
    let dur := lastClipEnd clips
    let ovlps := updateClipOverlap clips t.overlaps c' false
    Except.ok { t with clips := clips, duration := dur, overlaps := ovlps }

/-- `VideoTrack::MoveClip`. -/
def moveClip (t : Track) (id newStart : Int) : Except String Track :=
  match clipById t.clips id with
  | none => Except.error "Invalid value for argument 'id'!"
  | some c =>
    if c.start = newStart then Except.ok t
    else
      let c' := { c with start := newStart }
      if !checkClipRangeValid t.overlaps id c'.start c'.stop then
        Except.error "Invalid argument for moving clip!"
      else
        let clips := MEC.sortStable clipLe
          (MEC.updateFirst (fun o => o.id = id) (fun o => { o with start := newStart }) t.clips)
        let dur := lastClipEnd clips
        let ovlps := updateClipOverlap clips t.overlaps c' false
        Except.ok { t with clips := clips, duration := dur, overlaps := ovlps }

/-- `VideoTrack::ChangeClipRange`.  Modelled from the spec for the part played
by `VideoClip::ChangeStartOffset` / `ChangeEndOffset` (not among the provided
sources): they adjust the source-offset endpoints, so the clip keeps its
`start` and its duration becomes `sourceDuration − startOffset − endOffset`. -/
def changeClipRange (t : Track) (id so eo : Int) : Except String Track :=
  match clipById t.clips id with
  | none => Except.error "Invalid value for argument 'id'!"
  | some c =>
    if so = c.startOffset ∧ eo = c.endOffset then Except.ok t
    else
      let c' := { c with startOffset := so, endOffset := eo }
      if !checkClipRangeValid t.overlaps id c'.start c'.stop then
        Except.error "Invalid argument for changing clip range!"
      else
        let clips := MEC.sortStable clipLe
          (MEC.updateFirst (fun o => o.id = id)
            (fun o => { o with startOffset := so, endOffset := eo }) t.clips)
        let dur := lastClipEnd clips
        let ovlps := updateClipOverlap clips t.overlaps c' false
        Except.ok { t with clips := clips, duration := dur, overlaps := ovlps }

/-- `VideoTrack::RemoveClipById`: erase the clip, clear its track id, prune
the overlaps, recompute the duration (0 when the track became empty). -/
def removeClipById (t : Track) (id : Int) : Option Clip × Track :=
  match clipById t.clips id with
  | none => (none, t)
  | some c =>
    let clips := t.clips.eraseP (fun o => o.id = id)
    let c' := { c with trackId := -1 }
    let ovlps := updateClipOverlap clips t.overlaps c' true
    let dur := if clips.isEmpty then 0 else lastClipEnd clips
    (some c', { t with clips := clips, overlaps := ovlps, duration := dur })

/-- The read-cursor state of `VideoTrack::ReadVideoFrame`: the frame counter
`m_readFrames`, the direction `m_readForward` and the frame rate. -/
structure TrackReadState where
  readFrames : Int
  readForward : Bool
  frNum : Int
  frDen : Int
deriving DecidableEq, Repr

/-- The read position `(int64_t)((double)m_readFrames*1000*frameRate.den/frameRate.num)`:
the exact quotient truncated toward zero. -/
def trackReadPos (t : TrackReadState) : Int :=
  Int.tdiv (t.readFrames * 1000 * t.frDen) t.frNum

/-- `VideoTrack::ReadVideoFrame`, restricted to the returned frame's
`time_stamp` (which the source sets to `readPos/1000` on every path, whether
the frame came from an overlap, a clip or is empty) and the cursor update:
`m_readFrames` is incremented in forward direction and decremented in
reverse. -/
def readVideoFrame (t : TrackReadState) : ℚ × TrackReadState :=
  ((trackReadPos t : ℚ) / 1000,
   { t with readFrames := if t.readForward then t.readFrames + 1 else t.readFrames - 1 })

/-- The cursor state after `k` consecutive `ReadVideoFrame` calls. -/
def readN (t : TrackReadState) : Nat → TrackReadState
  | 0 => t
  | n + 1 => (readVideoFrame (readN t n)).2

/-- The `time_stamp` of the `k`-th frame (0-based) returned by consecutive
`ReadVideoFrame` calls starting from state `t`. -/
def tsAt (t : TrackReadState) (k : Nat) : ℚ :=
  (readVideoFrame (readN t k)).1

end DataLayer

namespace MediaPlayer

/-- A cached frame of `RenderThreadProc_SeekAsync` in `MediaPlayer_FFImpl.cpp`:
its `time_stamp` (a C++ `double` in seconds, embedded as `ℚ`) plus an opaque
image payload. -/
structure CFrame where
  ts : ℚ
  data : Nat
deriving DecidableEq, Repr

/-- A default frame, only used to read the head/last of lists already known
to be non-empty. -/
def dummyFrame : CFrame := ⟨0, 0⟩

/-- The cache-shrink loop of `RenderThreadProc_SeekAsync` (fueled version;
each iteration removes one element, so any fuel of at least
`l.length - 48` reaches the loop's exit condition):

    while (vidMatCache.size() > CACHE_SHRINK_SIZE)
      if (abs(iter0->time_stamp - vidSeekTimestamp) > abs(iter1->time_stamp - vidSeekTimestamp))
        pop_front else pop_back

with `CACHE_SHRINK_SIZE = 48`. -/
def shrinkGo (target : ℚ) : Nat → List CFrame → List CFrame
  | 0, l => l
  | n + 1, l =>
    if l.length ≤ 48 then l
    else if |(l.headD dummyFrame).ts - target| > |(l.getLastD dummyFrame).ts - target| then
      shrinkGo target n l.tail
    else
      shrinkGo target n l.dropLast

/-- The cache-shrink loop with enough fuel to terminate on its own. -/
def shrinkCache (target : ℚ) (l : List CFrame) : List CFrame :=
  shrinkGo target l.length l

/-- One accepted frame in `RenderThreadProc_SeekAsync`: `push_back` into the
cache, then, if the cache now holds more than `MAX_CACHE_SIZE = 64` entries,
run the shrink loop against the target timestamp
`vidSeekTimestamp = currSeekPos / 1000`. -/
def pushFrame (currSeekPos : Int) (cache : List CFrame) (f : CFrame) : List CFrame :=
  let c := cache ++ [f]
  if 64 < c.length then shrinkCache ((currSeekPos : ℚ) / 1000) c else c

/-- One removal step of the shrink loop, as the spec describes it: only an
end of the cache may be discarded, and only when the discarded end's
timestamp is at least as far from the seek target as the opposite end's
(strictly farther for the front, else the back is taken). -/
inductive ShrinkStep (target : ℚ) : List CFrame → List CFrame → Prop
  | front (l : List CFrame) (h48 : 48 < l.length)
      (hfar : |(l.headD dummyFrame).ts - target| > |(l.getLastD dummyFrame).ts - target|) :
      ShrinkStep target l l.tail
  | back (l : List CFrame) (h48 : 48 < l.length)
      (hfar : |(l.headD dummyFrame).ts - target| ≤ |(l.getLastD dummyFrame).ts - target|) :
      ShrinkStep target l l.dropLast

end MediaPlayer

namespace MEC

/-- `Project::ErrorCode` (the codes `MecProject.cpp` uses). -/
inductive ErrorCode where
  | OK
  | FAILED
  | NOT_OPENED
  | TL_INVALID
  | ALREADY_EXISTS
  | MKDIR_FAILED
  | FILE_INVALID
  | PARSE_FAILED
deriving DecidableEq, Repr

/-- The state of a `MEC::Project`: the `m_bOpened` flag, name/paths/version
and whether the JSON content tree `m_jnProjContent` currently `is_object()`
(the only fact about it the save path inspects). -/
structure Project where
  opened : Bool
  projName : String
  projDir : String
  projFilePath : String
  projVer : Nat
  contentIsObject : Bool
deriving DecidableEq, Repr

/-- `Project::Save`.  `fsOk` stands for the outcome of the opaque file write
`jnProj.save(m_projFilePath)`.  No path of `Save` mutates the project
state. -/
def projectSave (fsOk : Bool) (p : Project) : ErrorCode × Project :=
  if !p.opened then (ErrorCode.NOT_OPENED, p)
  else if !p.contentIsObject then (ErrorCode.TL_INVALID, p)
  else if !fsOk then (ErrorCode.FAILED, p)
  else (ErrorCode.OK, p)

/-- `Project::Close(bSaveBeforeClose)`: on a not-opened project it returns
`OK` immediately; otherwise it optionally saves (propagating a save failure)
and then clears every field. -/
def projectClose (fsOk : Bool) (saveBefore : Bool) (p : Project) : ErrorCode × Project :=
  if !p.opened then (ErrorCode.OK, p)
  else
    let saveRes := if saveBefore then projectSave fsOk p else (ErrorCode.OK, p)
    if saveRes.1 ≠ ErrorCode.OK then (saveRes.1, saveRes.2)
    else (ErrorCode.OK, ⟨false, "", "", "", 0, false⟩)

end MEC

namespace MEC

/-- The pairwise relation of the spec's T-NoOverlap invariant: two events at
the same `z` must have disjoint half-open ranges. -/
def noOvlR (a b : EvtRec) : Prop :=
  a.z = b.z → a.stop ≤ b.start ∨ b.stop ≤ a.start

/-- Stack states reachable from a fresh stack by the mutating calls named in
the spec: `addEvent`, `changeEventRange`, `moveEvent`, `moveAllEvents` and
JSON enroll.  Rejected calls leave their (unchanged-events) result state,
which these constructors also cover. -/
inductive StackReachable : Stack → Prop
  | init : StackReachable emptyStack
  | add (s : Stack) (id start stop z : Int) :
      StackReachable s → StackReachable (addNewEvent s id start stop z).2
  | changeRange (s : Stack) (id start stop : Int) :
      StackReachable s → StackReachable (changeEventRange s id start stop).2
  | move (s : Stack) (id start z : Int) :
      StackReachable s → StackReachable (moveEvent s id start z).2
  | moveAll (s : Stack) (offset : Int) :
      StackReachable s → StackReachable (moveAllEvents s offset).2
  | enroll (s : Stack) (h : EvtRec) :
      StackReachable s → StackReachable (enrollEvent s h).2

end MEC

namespace DataLayer

/-- Track states reachable from a fresh track by successfully completed
insert, move, change-range and remove operations (a rejected mutation throws
`invalid_argument`, so the sequence ends there). -/
inductive TrackReachable : Track → Prop
  | init (id : Int) : TrackReachable (emptyTrack id)
  | insert (t : Track) (c : Clip) (t' : Track) :
      TrackReachable t → insertClip t c = Except.ok t' → TrackReachable t'
  | move (t : Track) (id ns : Int) (t' : Track) :
      TrackReachable t → moveClip t id ns = Except.ok t' → TrackReachable t'
  | changeRange (t : Track) (id so eo : Int) (t' : Track) :
      TrackReachable t → changeClipRange t id so eo = Except.ok t' → TrackReachable t'
  | remove (t : Track) (id : Int) :
      TrackReachable t → TrackReachable (removeClipById t id).2

/-- The spec's T-ClipValidity invariant, as a decidable check: no clip has an
endpoint strictly inside an overlap formed by two clips other than itself. -/
def trackClipValidity (t : Track) : Bool :=
  t.clips.all (fun c => t.overlaps.all (fun o =>
    (c.id = o.aId || c.id = o.bId) ||
    !((decide (o.start < c.start) && decide (c.start < o.stop)) ||
      (decide (o.start < c.stop) && decide (c.stop < o.stop)))))

/-- The semantic rejection condition of `CheckClipRangeValid`: some endpoint
of the candidate range lies strictly inside an overlap that does not involve
the candidate clip. -/
def endpointInsideForeignOverlap (ovlps : List Ovlp) (clipId start stop : Int) : Prop :=
  ∃ o ∈ ovlps, ¬(clipId = o.aId ∨ clipId = o.bId) ∧
    ((o.start < start ∧ start < o.stop) ∨ (o.start < stop ∧ stop < o.stop))

end DataLayer

namespace MEC

/-- The pairwise well-formedness relation `EventStack_Base` maintains:
distinct ids and, at equal `z`, disjoint ranges. -/
def wfRel (a b : EvtRec) : Prop :=
  a.id ≠ b.id ∧ noOvlR a b

/-- The well-formedness invariant `EventStack_Base` maintains: distinct ids
and, for each pair at equal `z`, disjoint ranges. -/
def stackWF (s : Stack) : Prop :=
  s.events.Pairwise wfRel

theorem insertStable_perm (le : α → α → Bool) (x : α) (l : List α) :
    (insertStable le x l).Perm (x :: l) := by
  induction l with
  | nil => simp [insertStable]
  | cons y ys ih =>
    by_cases h : le y x
    · simpa [insertStable, h] using (ih.cons y).trans (List.Perm.swap x y ys)
    · simp [insertStable, h]

theorem foldl_insertStable_perm (le : α → α → Bool) :
    ∀ (l acc : List α), (l.foldl (fun acc x => insertStable le x acc) acc).Perm (acc ++ l)
  | [], acc => by simp
  | x :: xs, acc => by
    have h1 := foldl_insertStable_perm le xs (insertStable le x acc)
    have h2 : (insertStable le x acc ++ xs).Perm (acc ++ x :: xs) := by
      have := (insertStable_perm le x acc).append_right xs
      exact this.trans List.perm_middle.symm
    simpa [List.foldl_cons] using h1.trans h2

theorem sortStable_perm (le : α → α → Bool) (l : List α) :
    (sortStable le l).Perm l := by
  simpa [sortStable] using foldl_insertStable_perm le l []

theorem find?_split (p : α → Bool) :
    ∀ {l : List α} {e : α}, l.find? p = some e →
      ∃ l₁ l₂, l = l₁ ++ e :: l₂ ∧ (∀ y ∈ l₁, p y = false) ∧ p e = true := by
  intro l
  induction l with
  | nil => intro e h; simp at h
  | cons x xs ih =>
    intro e h
    by_cases hx : p x
    · rw [List.find?_cons_of_pos _ hx] at h
      cases h
      exact ⟨[], xs, by simp, by simp, hx⟩
    · rw [List.find?_cons_of_neg _ (by simpa using hx)] at h
      obtain ⟨l₁, l₂, rfl, h₁, h₂⟩ := ih h
      exact ⟨x :: l₁, l₂, by simp, by simpa [hx] using h₁, h₂⟩

theorem updateFirst_append (p : α → Bool) (f : α → α) :
    ∀ (l₁ : List α) (x : α) (l₂ : List α), (∀ y ∈ l₁, p y = false) → p x = true →
      updateFirst p f (l₁ ++ x :: l₂) = l₁ ++ f x :: l₂
  | [], x, l₂, _, hx => by simp [updateFirst, hx]
  | y :: ys, x, l₂, h₁, hx => by
    have hy : p y = false := h₁ y (by simp)
    have := updateFirst_append p f ys x l₂ (fun z hz => h₁ z (by simp [hz])) hx
    simp [updateFirst, hy, this]

end MEC

namespace MEC

/-- C3: Applying an event stack to a frame changes nothing unless an event is
effective at the position: a stack with zero events returns the frame
unchanged, and an event contributes to `FilterImage (vmat, pos)` only when
`start ≤ pos < end` — at `pos = end` or `pos < start` it contributes
nothing. -/
theorem filterImage_pass_through :
    (∀ (vmat pos : Int), filterImage [] vmat pos = vmat) ∧
    (∀ (l₁ l₂ : List VEvt) (e : VEvt) (vmat pos : Int),
      pos < e.evt.start ∨ e.evt.stop ≤ pos →
      filterImage (l₁ ++ e :: l₂) vmat pos = filterImage (l₁ ++ l₂) vmat pos) := by
  constructor
  · intro vmat pos; simp [filterImage]
  · intro l₁ l₂ e vmat pos h
    have he : isInRange e.evt pos = false := by
      simp only [isInRange, Bool.and_eq_false_iff, decide_eq_false_iff_not, not_le, not_lt, ge_iff_le]
      omega
    simp [filterImage, List.filter_append, he]

/-- Witness for `filterImage_pass_through`: one event `[100, 200)` applied at
the excluded endpoint `pos = 200` leaves the frame untouched. -/
theorem filterImage_pass_through_witness :
    filterImage [⟨⟨1, 100, 200, 0⟩, fun m _ => m + 1⟩] 7 200 = 7 := by
  have h := filterImage_pass_through.2 [] [] ⟨⟨1, 100, 200, 0⟩, fun m _ => m + 1⟩ 7 200
    (Or.inr (by decide))
  have h0 := filterImage_pass_through.1 7 200
  simpa using h.trans (by simpa using h0)

/-- C10: `RemoveEvent` with an id that matches no event is a silent no-op:
the whole stack state (events, error string, editing id) is unchanged,
whereas `GetEvent` with the same id returns null and overwrites the error
string with its miss message. -/
theorem removeEvent_missing_id_silent (s : Stack) (id : Int)
    (h : ∀ e ∈ s.events, e.id ≠ id) :
    removeEvent s id = s ∧
    (getEvent s id).1 = none ∧
    (getEvent s id).2 = { s with errMsg := getEventErrMsg id } := by
  have hfind : s.events.find? (fun e => e.id = id) = none := by
    rw [List.find?_eq_none]
    intro x hx
    simpa using h x hx
  refine ⟨?_, ?_, ?_⟩
  · simp [removeEvent, hfind]
  · simp [getEvent, hfind]
  · simp [getEvent, hfind]

/-- Witness for `removeEvent_missing_id_silent` on a one-event stack and a
missing id. -/
theorem removeEvent_missing_id_silent_witness :
    removeEvent ⟨[⟨1, 0, 10, 0⟩], "", -1⟩ 2 = ⟨[⟨1, 0, 10, 0⟩], "", -1⟩ ∧
    (getEvent ⟨[⟨1, 0, 10, 0⟩], "", -1⟩ 2).1 = none ∧
    (getEvent ⟨[⟨1, 0, 10, 0⟩], "", -1⟩ 2).2 =
      ⟨[⟨1, 0, 10, 0⟩], getEventErrMsg 2, -1⟩ :=
  removeEvent_missing_id_silent ⟨[⟨1, 0, 10, 0⟩], "", -1⟩ 2 (by decide)

/-- C4 (code bug): `VideoEvent_Impl::SaveMask` with a negative index does not
append — the guard `index > ajnMasks.size()` compares the signed `index`
against an unsigned `size_t`, so every negative index converts to a value
above `2^63` and is rejected (returning false, masks unchanged), making the
`index < 0 || ...` append branch unreachable for negatives.  Saving at
`index == len` does append, and `0 ≤ index < len` replaces. -/
theorem saveMask_negative_index_rejected :
    saveMask (fun j => j + 1) ⟨[], []⟩ 5 none (-1) = (false, ⟨[], []⟩) ∧
    saveMask (fun j => j + 1) ⟨[], []⟩ 5 none 0 = (true, ⟨[5], [6]⟩) ∧
    saveMask (fun j => j + 1) ⟨[5], [6]⟩ 9 none 0 = (true, ⟨[9], [10]⟩) := by
  refine ⟨?_, ?_, ?_⟩ <;> decide

end MEC

namespace MEC

/-- C9 counterexample: `Project::Close` invoked on a not-opened project
returns `OK`, not `NOT_OPENED` — refuting the claim that every operation on a
not-opened project returns the `NOT_OPENED` error code. -/
theorem projectClose_not_opened_counterexample :
    (projectClose true false ⟨false, "", "", "", 0, false⟩).1 = ErrorCode.OK ∧
    ErrorCode.OK ≠ ErrorCode.NOT_OPENED := by
  exact ⟨rfl, by decide⟩

/-- C9 amended: on a not-opened project, `Save` returns `NOT_OPENED` and
leaves the project state unchanged, while `Close` is a silent no-op that
returns `OK` and leaves the state unchanged. -/
theorem project_not_opened_behavior (fsOk saveBefore : Bool) (p : Project)
    (h : p.opened = false) :
    projectSave fsOk p = (ErrorCode.NOT_OPENED, p) ∧
    projectClose fsOk saveBefore p = (ErrorCode.OK, p) := by
  constructor
  · simp [projectSave, h]
  · simp [projectClose, h]

/-- Witness for `project_not_opened_behavior` on a concrete not-opened
project. -/
theorem project_not_opened_behavior_witness :
    projectSave true ⟨false, "p", "d", "f", 3, true⟩ =
      (ErrorCode.NOT_OPENED, ⟨false, "p", "d", "f", 3, true⟩) ∧
    projectClose true true ⟨false, "p", "d", "f", 3, true⟩ =
      (ErrorCode.OK, ⟨false, "p", "d", "f", 3, true⟩) :=
  project_not_opened_behavior true true ⟨false, "p", "d", "f", 3, true⟩ rfl

end MEC

namespace MEC

theorem ite_swap_min (a b : Int) : (if b < a then b else a) = min a b := by omega

theorem ite_swap_max (a b : Int) : (if b < a then a else b) = max a b := by omega

/-- C2: for `AddNewEvent`, `ChangeEventRange` and `MoveEvent`, invalid
arguments — identical start and end, a duplicate event id, or a time overlap
with another event at the same `z` (after the silent swap of a reversed
range) — make the call return its typed failure (null holder resp. false)
with the stack's event list (every id, start, end and z) exactly as
before. -/
theorem mutators_reject_invalid_preserving_events :
    (∀ (s : Stack) (id a b z : Int),
      (a = b ∨ (∃ e ∈ s.events, e.id = id) ∨
        ∃ e ∈ s.events, checkEventOverlapped e (min a b) (max a b) z = true) →
      (addNewEvent s id a b z).1 = none ∧ ((addNewEvent s id a b z).2).events = s.events) ∧
    (∀ (s : Stack) (id a b : Int),
      (a = b ∨ ∃ e, s.events.find? (fun o => o.id = id) = some e ∧
        ∃ o ∈ s.events, o.id ≠ id ∧ checkEventOverlapped o (min a b) (max a b) e.z = true) →
      (changeEventRange s id a b).1 = false ∧ ((changeEventRange s id a b).2).events = s.events) ∧
    (∀ (s : Stack) (id ns zn : Int) (e : EvtRec),
      s.events.find? (fun o => o.id = id) = some e →
      (∃ o ∈ s.events, o.id ≠ id ∧
        checkEventOverlapped o ns (e.stop + (ns - e.start)) zn = true) →
      (moveEvent s id ns zn).1 = false ∧ ((moveEvent s id ns zn).2).events = s.events) := by
  refine ⟨?_, ?_, ?_⟩
  · intro s id a b z h
    by_cases hab : a = b
    · simp [addNewEvent, hab]
    · rcases h with h | h | h
      · exact absurd h hab
      · obtain ⟨e, he, hid⟩ := h
        have hsome : ∃ e', s.events.find? (fun o => o.id = id) = some e' := by
          have : (s.events.find? (fun o => o.id = id)).isSome := by
            rw [List.find?_isSome]
            exact ⟨e, he, by simpa using hid⟩
          exact Option.isSome_iff_exists.mp this
        obtain ⟨e', he'⟩ := hsome
        simp [addNewEvent, hab, getEvent, he']
      · obtain ⟨e, he, hchk⟩ := h
        cases hfind : s.events.find? (fun o => o.id = id) with
        | some e' => simp [addNewEvent, hab, getEvent, hfind]
        | none =>
          have hany : s.events.any
              (fun o => checkEventOverlapped o (if b < a then b else a) (if b < a then a else b) z) = true := by
            rw [List.any_eq_true]
            exact ⟨e, he, by simpa [ite_swap_min, ite_swap_max] using hchk⟩
          simp [addNewEvent, hab, getEvent, hfind, hany]
  · intro s id a b h
    by_cases hab : a = b
    · simp [changeEventRange, hab]
    · rcases h with h | h
      · exact absurd h hab
      · obtain ⟨e, hfind, o, ho, hne, hchk⟩ := h
        have hany : (s.events.any fun x =>
            decide (x.id ≠ id) &&
              checkEventOverlapped x (if b < a then b else a) (if b < a then a else b) e.z) = true := by
          rw [List.any_eq_true]
          refine ⟨o, ho, ?_⟩
          simp only [Bool.and_eq_true, decide_eq_true_eq]
          exact ⟨hne, by simpa [ite_swap_min, ite_swap_max] using hchk⟩
        simp only [changeEventRange, getEvent, hfind, if_neg hab]
        rw [if_pos hany]
        exact ⟨rfl, rfl⟩
  · intro s id ns zn e hfind h
    obtain ⟨o, ho, hne, hchk⟩ := h
    have hany : (s.events.any fun x =>
        decide (x.id ≠ id) && checkEventOverlapped x ns (e.stop + (ns - e.start)) zn) = true := by
      rw [List.any_eq_true]
      refine ⟨o, ho, ?_⟩
      simp only [Bool.and_eq_true, decide_eq_true_eq]
      exact ⟨hne, hchk⟩
    simp only [moveEvent, getEvent, hfind]
    rw [if_pos hany]
    exact ⟨rfl, rfl⟩

/-- Witness for `mutators_reject_invalid_preserving_events`: a two-event
stack rejects an add with `start = end`, a range change overlapping the
sibling event, and a move overlapping the sibling event, each leaving the
event list unchanged. -/
theorem mutators_reject_invalid_preserving_events_witness :
    ((addNewEvent ⟨[⟨1, 0, 10, 0⟩, ⟨2, 20, 30, 0⟩], "", -1⟩ 3 5 5 0).1 = none ∧
      ((addNewEvent ⟨[⟨1, 0, 10, 0⟩, ⟨2, 20, 30, 0⟩], "", -1⟩ 3 5 5 0).2).events =
        [⟨1, 0, 10, 0⟩, ⟨2, 20, 30, 0⟩]) ∧
    ((changeEventRange ⟨[⟨1, 0, 10, 0⟩, ⟨2, 20, 30, 0⟩], "", -1⟩ 1 5 25).1 = false ∧
      ((changeEventRange ⟨[⟨1, 0, 10, 0⟩, ⟨2, 20, 30, 0⟩], "", -1⟩ 1 5 25).2).events =
        [⟨1, 0, 10, 0⟩, ⟨2, 20, 30, 0⟩]) ∧
    ((moveEvent ⟨[⟨1, 0, 10, 0⟩, ⟨2, 20, 30, 0⟩], "", -1⟩ 1 15 0).1 = false ∧
      ((moveEvent ⟨[⟨1, 0, 10, 0⟩, ⟨2, 20, 30, 0⟩], "", -1⟩ 1 15 0).2).events =
        [⟨1, 0, 10, 0⟩, ⟨2, 20, 30, 0⟩]) := by
  refine ⟨?_, ?_, ?_⟩
  · exact mutators_reject_invalid_preserving_events.1
      ⟨[⟨1, 0, 10, 0⟩, ⟨2, 20, 30, 0⟩], "", -1⟩ 3 5 5 0 (Or.inl rfl)
  · exact mutators_reject_invalid_preserving_events.2.1
      ⟨[⟨1, 0, 10, 0⟩, ⟨2, 20, 30, 0⟩], "", -1⟩ 1 5 25
      (Or.inr ⟨⟨1, 0, 10, 0⟩, by decide, ⟨2, 20, 30, 0⟩, by decide, by decide, by decide⟩)
  · exact mutators_reject_invalid_preserving_events.2.2
      ⟨[⟨1, 0, 10, 0⟩, ⟨2, 20, 30, 0⟩], "", -1⟩ 1 15 0 ⟨1, 0, 10, 0⟩ (by decide)
      ⟨⟨2, 20, 30, 0⟩, by decide, by decide, by decide⟩

end MEC

namespace MEC

theorem wfRel_symm : ∀ {x y : EvtRec}, wfRel x y → wfRel y x := by
  intro a b hab
  exact ⟨fun h => hab.1 h.symm, fun hz => (hab.2 hz.symm).symm⟩

theorem checkEventOverlapped_eq_true {e : EvtRec} {s t z : Int} :
    checkEventOverlapped e s t z = true ↔ (e.z = z ∧ s < e.stop ∧ e.start < t) := by
  simp only [checkEventOverlapped, Bool.and_eq_true, decide_eq_true_eq,
    Bool.not_eq_true', Bool.or_eq_false_iff, decide_eq_false_iff_not, not_le]

theorem checkEventOverlapped_eq_false {e : EvtRec} {s t z : Int} :
    checkEventOverlapped e s t z = false ↔ (e.z = z → e.stop ≤ s ∨ t ≤ e.start) := by
  constructor
  · intro h hz
    by_contra hcon
    push_neg at hcon
    rw [checkEventOverlapped_eq_true.mpr ⟨hz, hcon.1, hcon.2⟩] at h
    cases h
  · intro h
    cases hc : checkEventOverlapped e s t z with
    | false => rfl
    | true =>
      obtain ⟨hz, h1, h2⟩ := checkEventOverlapped_eq_true.mp hc
      rcases h hz with h3 | h3 <;> omega

theorem stackWF_append_new {l : List EvtRec} {x : EvtRec}
    (hwf : l.Pairwise wfRel)
    (hids : ∀ e ∈ l, e.id ≠ x.id)
    (hovl : ∀ e ∈ l, checkEventOverlapped e x.start x.stop x.z = false) :
    (sortStable eventOrderLe (l ++ [x])).Pairwise wfRel := by
  rw [List.Perm.pairwise_iff wfRel_symm (sortStable_perm eventOrderLe (l ++ [x])),
    List.pairwise_append]
  refine ⟨hwf, List.pairwise_singleton _ _, ?_⟩
  intro a ha b hb
  rw [List.mem_singleton] at hb
  subst hb
  exact ⟨hids a ha, checkEventOverlapped_eq_false.mp (hovl a ha)⟩

theorem stackWF_update_middle {l : List EvtRec} {id : Int} {e : EvtRec} (f : EvtRec → EvtRec)
    (hwf : l.Pairwise wfRel)
    (hfind : l.find? (fun o => o.id = id) = some e)
    (hfid : (f e).id = e.id)
    (hovl : ∀ o ∈ l, o.id ≠ id → checkEventOverlapped o (f e).start (f e).stop (f e).z = false) :
    (sortStable eventOrderLe (updateFirst (fun o => o.id = id) f l)).Pairwise wfRel := by
  obtain ⟨l₁, l₂, rfl, hl₁, hpe⟩ := find?_split _ hfind
  have heid : e.id = id := by simpa using hpe
  rw [updateFirst_append _ f l₁ e l₂ hl₁ hpe]
  rw [List.Perm.pairwise_iff wfRel_symm (sortStable_perm eventOrderLe _),
    List.pairwise_middle wfRel_symm]
  have hmid : (e :: (l₁ ++ l₂)).Pairwise wfRel :=
    (List.pairwise_middle wfRel_symm).mp hwf
  rw [List.pairwise_cons] at hmid ⊢
  obtain ⟨hrel, hrest⟩ := hmid
  refine ⟨?_, hrest⟩
  intro y hy
  have hymem : y ∈ l₁ ++ e :: l₂ := by
    rw [List.mem_append] at hy
    rcases hy with hy | hy
    · exact List.mem_append_left _ hy
    · exact List.mem_append_right _ (List.mem_cons_of_mem _ hy)
  have hyne : y.id ≠ e.id := fun h => (hrel y hy).1 h.symm
  have hynid : y.id ≠ id := heid ▸ hyne
  have hchk := checkEventOverlapped_eq_false.mp (hovl y hymem hynid)
  refine ⟨?_, ?_⟩
  · rw [hfid]
    exact fun h => hyne h.symm
  · intro hz
    exact (hchk hz.symm).symm

theorem stackWF_events_eq {s s' : Stack} (h : s'.events = s.events) (hwf : stackWF s) :
    stackWF s' := by
  rw [stackWF, h]
  exact hwf

theorem stackWF_addNewEvent (s : Stack) (id a b z : Int) (hwf : stackWF s) :
    stackWF (addNewEvent s id a b z).2 := by
  by_cases hab : a = b
  · exact stackWF_events_eq (by simp [addNewEvent, hab]) hwf
  · cases hfind : s.events.find? (fun o => o.id = id) with
    | some e =>
      exact stackWF_events_eq (by simp [addNewEvent, hab, getEvent, hfind]) hwf
    | none =>
      cases hany : s.events.any
          (fun e => checkEventOverlapped e (if b < a then b else a) (if b < a then a else b) z) with
      | true =>
        refine stackWF_events_eq ?_ hwf
        simp only [addNewEvent, getEvent, hfind, if_neg hab]
        rw [if_pos hany]
      | false =>
        have hids : ∀ e ∈ s.events, e.id ≠ id := by
          intro e he
          have := List.find?_eq_none.mp hfind e he
          simpa using this
        have hovl : ∀ e ∈ s.events,
            checkEventOverlapped e (if b < a then b else a) (if b < a then a else b) z = false := by
          intro e he
          cases hc : checkEventOverlapped e (if b < a then b else a) (if b < a then a else b) z with
          | false => rfl
          | true =>
            rw [List.any_eq_true.mpr ⟨e, he, hc⟩] at hany
            cases hany
        have hres : (addNewEvent s id a b z).2.events =
            sortStable eventOrderLe
              (s.events ++ [⟨id, if b < a then b else a, if b < a then a else b, z⟩]) := by
          simp only [addNewEvent, getEvent, hfind, if_neg hab]
          rw [if_neg (by rw [hany]; exact Bool.false_ne_true)]
        rw [stackWF, hres]
        exact stackWF_append_new hwf hids hovl

theorem stackWF_changeEventRange (s : Stack) (id a b : Int) (hwf : stackWF s) :
    stackWF (changeEventRange s id a b).2 := by
  by_cases hab : a = b
  · exact stackWF_events_eq (by simp [changeEventRange, hab]) hwf
  · cases hfind : s.events.find? (fun o => o.id = id) with
    | none =>
      exact stackWF_events_eq (by simp [changeEventRange, hab, getEvent, hfind]) hwf
    | some e =>
      cases hany : s.events.any (fun o =>
          decide (o.id ≠ id) &&
            checkEventOverlapped o (if b < a then b else a) (if b < a then a else b) e.z) with
      | true =>
        refine stackWF_events_eq ?_ hwf
        simp only [changeEventRange, getEvent, hfind, if_neg hab]
        rw [if_pos hany]
      | false =>
        have hovl : ∀ o ∈ s.events, o.id ≠ id →
            checkEventOverlapped o (if b < a then b else a) (if b < a then a else b) e.z = false := by
          intro o ho hne
          cases hc : checkEventOverlapped o (if b < a then b else a) (if b < a then a else b) e.z with
          | false => rfl
          | true =>
            rw [List.any_eq_true.mpr ⟨o, ho, by simp [hne, hc]⟩] at hany
            cases hany
        have hres : (changeEventRange s id a b).2.events =
            sortStable eventOrderLe
              (updateFirst (fun o => o.id = id)
                (fun o => { o with start := if b < a then b else a, stop := if b < a then a else b })
                s.events) := by
          simp only [changeEventRange, getEvent, hfind, if_neg hab]
          rw [if_neg (by rw [hany]; exact Bool.false_ne_true)]
        rw [stackWF, hres]
        exact stackWF_update_middle _ hwf hfind rfl hovl

theorem stackWF_moveEvent (s : Stack) (id ns zn : Int) (hwf : stackWF s) :
    stackWF (moveEvent s id ns zn).2 := by
  cases hfind : s.events.find? (fun o => o.id = id) with
  | none =>
    exact stackWF_events_eq (by simp [moveEvent, getEvent, hfind]) hwf
  | some e =>
    cases hany : s.events.any (fun o =>
        decide (o.id ≠ id) && checkEventOverlapped o ns (e.stop + (ns - e.start)) zn) with
    | true =>
      refine stackWF_events_eq ?_ hwf
      simp only [moveEvent, getEvent, hfind]
      rw [if_pos hany]
    | false =>
      have hovl : ∀ o ∈ s.events, o.id ≠ id →
          checkEventOverlapped o ns (e.stop + (ns - e.start)) zn = false := by
        intro o ho hne
        cases hc : checkEventOverlapped o ns (e.stop + (ns - e.start)) zn with
        | false => rfl
        | true =>
          rw [List.any_eq_true.mpr ⟨o, ho, by simp [hne, hc]⟩] at hany
          cases hany
      have hres : (moveEvent s id ns zn).2.events =
          sortStable eventOrderLe
            (updateFirst (fun o => o.id = id)
              (fun o => { o with start := ns, stop := e.stop + (ns - e.start), z := zn })
              s.events) := by
        simp only [moveEvent, getEvent, hfind]
        rw [if_neg (by rw [hany]; exact Bool.false_ne_true)]
      rw [stackWF, hres]
      exact stackWF_update_middle _ hwf hfind rfl hovl

theorem stackWF_moveAllEvents (s : Stack) (offset : Int) (hwf : stackWF s) :
    stackWF (moveAllEvents s offset).2 := by
  rw [stackWF]
  simp only [moveAllEvents]
  refine List.Pairwise.map _ ?_ hwf
  intro a b hab
  refine ⟨hab.1, ?_⟩
  intro hz
  have := hab.2 hz
  simp only [noOvlR] at this ⊢
  omega

theorem enrollScan_eq_none {h : EvtRec} :
    ∀ {l : List EvtRec}, enrollScan h l = none ↔
      ∀ e ∈ l, e.id ≠ h.id ∧ checkEventOverlapped e h.start h.stop h.z = false := by
  intro l
  induction l with
  | nil => simp [enrollScan]
  | cons e es ih =>
    by_cases hid : e.id = h.id
    · simp [enrollScan, hid]
    · by_cases hchk : checkEventOverlapped e h.start h.stop h.z = true
      · simp [enrollScan, hid, hchk]
      · rw [Bool.not_eq_true] at hchk
        simp [enrollScan, hid, hchk, ih]

theorem stackWF_enrollEvent (s : Stack) (h : EvtRec) (hwf : stackWF s) :
    stackWF (enrollEvent s h).2 := by
  cases hscan : enrollScan h s.events with
  | some msg => exact stackWF_events_eq (by simp [enrollEvent, hscan]) hwf
  | none =>
    have hall := enrollScan_eq_none.mp hscan
    have hres : (enrollEvent s h).2.events = sortStable eventOrderLe (s.events ++ [h]) := by
      simp [enrollEvent, hscan]
    rw [stackWF, hres]
    exact stackWF_append_new hwf (fun e he => (hall e he).1) (fun e he => (hall e he).2)

theorem stackReachable_wf {s : Stack} (h : StackReachable s) : stackWF s := by
  induction h with
  | init => simp [stackWF, emptyStack]
  | add s id start stop z _ ih => exact stackWF_addNewEvent s id start stop z ih
  | changeRange s id start stop _ ih => exact stackWF_changeEventRange s id start stop ih
  | move s id start z _ ih => exact stackWF_moveEvent s id start z ih
  | moveAll s offset _ ih => exact stackWF_moveAllEvents s offset ih
  | enroll s e _ ih => exact stackWF_enrollEvent s e ih

/-- C1: in every stack state reachable by any sequence of `AddNewEvent`,
`ChangeEventRange`, `MoveEvent`, `MoveAllEvents` and JSON-enroll calls
(including rejected ones, which leave the state unchanged), no two distinct
events at equal `z` have overlapping time ranges: pairwise,
`a.end ≤ b.start ∨ b.end ≤ a.start`. -/
theorem stack_no_overlap_invariant (s : Stack) (h : StackReachable s) :
    s.events.Pairwise noOvlR :=
  (stackReachable_wf h).imp (fun hab => hab.2)

/-- Witness for `stack_no_overlap_invariant`: the stack reached by two
successful adds and one rejected overlapping add. -/
theorem stack_no_overlap_invariant_witness :
    ((addNewEvent (addNewEvent (addNewEvent emptyStack 1 0 100 0).2 2 100 200 0).2
        3 50 150 0).2).events.Pairwise noOvlR :=
  stack_no_overlap_invariant _
    (StackReachable.add _ 3 50 150 0
      (StackReachable.add _ 2 100 200 0
        (StackReachable.add _ 1 0 100 0 StackReachable.init)))

end MEC

namespace DataLayer

/-- C5 counterexample: inserting `A = [0,1000)` and then `B = [500,600)`
(a clip wholly inside `A`) is accepted, and the track's duration becomes 600
— the end of the clip with the greatest start — although the maximum clip end
is 1000.  So duration is not `max(clip.end)` over all clips. -/
theorem track_duration_counterexample :
    ((insertClip (emptyTrack 1) ⟨10, 0, 0, 1000, 0, 0⟩).bind
        (fun t => insertClip t ⟨11, 0, 500, 100, 0, 0⟩)).map
      (fun t => (t.duration, t.clips.map Clip.stop)) =
      Except.ok ((600 : Int), [(1000 : Int), 600]) ∧
    ¬(600 : Int) = max 1000 600 := by
  constructor
  · rfl
  · decide

/-- C5 amended: in every track state reachable by successfully completed
insert, move, change-range and remove operations, the duration equals
`start + duration` of the *last clip in start-sorted order* (0 when the track
is empty) — which is `max(clip.end)` only when no clip's range ends after
every later-starting clip's end. -/
theorem track_duration_eq_last_clip_end {t : Track} (h : TrackReachable t) :
    t.duration = lastClipEnd t.clips := by
  induction h with
  | init id => simp [emptyTrack, lastClipEnd]
  | insert t c t' _ hok ih =>
    simp only [insertClip] at hok
    split at hok
    · exact Except.noConfusion hok
    · cases hok
      rfl
  | move t id ns t' _ hok ih =>
    simp only [moveClip] at hok
    split at hok
    · exact Except.noConfusion hok
    · split at hok
      · cases hok
        exact ih
      · split at hok
        · exact Except.noConfusion hok
        · cases hok
          rfl
  | changeRange t id so eo t' _ hok ih =>
    simp only [changeClipRange] at hok
    split at hok
    · exact Except.noConfusion hok
    · split at hok
      · cases hok
        exact ih
      · split at hok
        · exact Except.noConfusion hok
        · cases hok
          rfl
  | remove t id ih₀ ih =>
    simp only [removeClipById]
    split
    · exact ih
    · by_cases he : (t.clips.eraseP (fun o => o.id = id)).isEmpty
      · rw [List.isEmpty_iff] at he
        simp [he, lastClipEnd]
      · simp [he]

/-- Witness for `track_duration_eq_last_clip_end`: the reachable track
obtained by the two inserts of the counterexample satisfies the amended
duration equation. -/
theorem track_duration_eq_last_clip_end_witness :
    (⟨1, [⟨10, 1, 0, 1000, 0, 0⟩, ⟨11, 1, 500, 100, 0, 0⟩],
        [⟨11, 10, 500, 600⟩], 600⟩ : Track).duration =
      lastClipEnd (⟨1, [⟨10, 1, 0, 1000, 0, 0⟩, ⟨11, 1, 500, 100, 0, 0⟩],
        [⟨11, 10, 500, 600⟩], 600⟩ : Track).clips :=
  track_duration_eq_last_clip_end
    (TrackReachable.insert ⟨1, [⟨10, 1, 0, 1000, 0, 0⟩], [], 1000⟩ ⟨11, 0, 500, 100, 0, 0⟩ _
      (TrackReachable.insert (emptyTrack 1) ⟨10, 0, 0, 1000, 0, 0⟩
        ⟨1, [⟨10, 1, 0, 1000, 0, 0⟩], [], 1000⟩
        (TrackReachable.init 1) (by rfl)) (by rfl))

end DataLayer

namespace DataLayer

/-- C6 counterexample: with clips `A = [0,100)` and `B = [90,200)` on the
track, inserting `C = [50,150)` passes `CheckClipRangeValid` (C's endpoints
avoid the only existing overlap `(90,100)`), yet afterwards clip `B`'s start
`90` lies strictly inside the freshly created overlap `A ∩ C = (50,100)`,
whose two member clips are both different from `B` — so T-ClipValidity does
not hold in every reachable state. -/
theorem track_clip_validity_counterexample :
    (((insertClip (emptyTrack 1) ⟨10, 0, 0, 100, 0, 0⟩).bind
        (fun t => insertClip t ⟨11, 0, 90, 110, 0, 0⟩)).bind
        (fun t => insertClip t ⟨12, 0, 50, 100, 0, 0⟩)).map
      (fun t => trackClipValidity t) = Except.ok false := by
  rfl

theorem clipRangePred_eq_false {o : Ovlp} {clipId start stop : Int} :
    ((decide (clipId = o.aId) || decide (clipId = o.bId)) ||
      !((decide (start > o.start) && decide (start < o.stop)) ||
        (decide (stop > o.start) && decide (stop < o.stop)))) = false ↔
      (¬(clipId = o.aId ∨ clipId = o.bId) ∧
        ((o.start < start ∧ start < o.stop) ∨ (o.start < stop ∧ stop < o.stop))) := by
  simp only [Bool.or_eq_false_iff, decide_eq_false_iff_not,
    Bool.not_eq_false', Bool.or_eq_true, Bool.and_eq_true, decide_eq_true_eq, not_or]

theorem checkClipRangeValid_eq_false {ovlps : List Ovlp} {clipId start stop : Int} :
    checkClipRangeValid ovlps clipId start stop = false ↔
      endpointInsideForeignOverlap ovlps clipId start stop := by
  rw [endpointInsideForeignOverlap, checkClipRangeValid]
  constructor
  · intro h
    have hnall : ¬ ∀ x ∈ ovlps, ((decide (clipId = x.aId) || decide (clipId = x.bId)) ||
        !((decide (start > x.start) && decide (start < x.stop)) ||
          (decide (stop > x.start) && decide (stop < x.stop)))) = true := by
      rw [← List.all_eq_true, h]
      exact Bool.false_ne_true
    push_neg at hnall
    obtain ⟨o, ho, hfail⟩ := hnall
    exact ⟨o, ho, clipRangePred_eq_false.mp (Bool.eq_false_iff.mpr hfail)⟩
  · rintro ⟨o, ho, hcond⟩
    cases hall : ovlps.all (fun o => (decide (clipId = o.aId) || decide (clipId = o.bId)) ||
        !((decide (start > o.start) && decide (start < o.stop)) ||
          (decide (stop > o.start) && decide (stop < o.stop)))) with
    | false => rfl
    | true =>
      have := List.all_eq_true.mp hall o ho
      rw [clipRangePred_eq_false.mpr hcond] at this
      cases this

/-- C6 amended: the mutations validate only the *mutated* clip — insert,
move (when the id exists and the start actually changes) and change-range
(when the id exists and an offset actually changes) fail with the
invalid-argument error exactly when an endpoint of the mutated clip's new
range lies strictly inside a pre-existing overlap of two clips other than
itself.  The global T-ClipValidity invariant over all clips does not follow
(see the counterexample): a successful mutation may put another clip's
endpoint strictly inside a newly created overlap. -/
theorem clip_mutations_reject_foreign_overlap_endpoints :
    (∀ (t : Track) (c : Clip),
      (∃ msg, insertClip t c = Except.error msg) ↔
        endpointInsideForeignOverlap t.overlaps c.id c.start c.stop) ∧
    (∀ (t : Track) (id ns : Int) (c : Clip),
      clipById t.clips id = some c → ¬c.start = ns →
      ((∃ msg, moveClip t id ns = Except.error msg) ↔
        endpointInsideForeignOverlap t.overlaps id ns (ns + c.length))) ∧
    (∀ (t : Track) (id so eo : Int) (c : Clip),
      clipById t.clips id = some c → ¬(so = c.startOffset ∧ eo = c.endOffset) →
      ((∃ msg, changeClipRange t id so eo = Except.error msg) ↔
        endpointInsideForeignOverlap t.overlaps id c.start
          (c.start + (c.srcDur - so - eo)))) := by
  refine ⟨?_, ?_, ?_⟩
  · intro t c
    cases hc : checkClipRangeValid t.overlaps c.id c.start c.stop with
    | false =>
      have hsem := checkClipRangeValid_eq_false.mp hc
      simp only [insertClip, hc, Bool.not_false, if_true]
      exact ⟨fun _ => hsem, fun _ => ⟨_, rfl⟩⟩
    | true =>
      have hsem : ¬ endpointInsideForeignOverlap t.overlaps c.id c.start c.stop := by
        intro hcon
        rw [checkClipRangeValid_eq_false.mpr hcon] at hc
        cases hc
      simp only [insertClip, hc, Bool.not_true, if_false]
      refine ⟨?_, fun hcon => absurd hcon hsem⟩
      rintro ⟨msg, hmsg⟩
      exact Except.noConfusion hmsg
  · intro t id ns c hfind hne
    have hck : checkClipRangeValid t.overlaps id ns (Clip.stop { c with start := ns }) =
        checkClipRangeValid t.overlaps id ns (ns + c.length) := by
      simp [Clip.stop, Clip.length]
    cases hc : checkClipRangeValid t.overlaps id ns (ns + c.length) with
    | false =>
      have hsem := checkClipRangeValid_eq_false.mp hc
      simp only [moveClip, hfind, if_neg hne, hck, hc, Bool.not_false, if_true]
      exact ⟨fun _ => hsem, fun _ => ⟨_, rfl⟩⟩
    | true =>
      have hsem : ¬ endpointInsideForeignOverlap t.overlaps id ns (ns + c.length) := by
        intro hcon
        rw [checkClipRangeValid_eq_false.mpr hcon] at hc
        cases hc
      simp only [moveClip, hfind, if_neg hne, hck, hc, Bool.not_true, if_false]
      refine ⟨?_, fun hcon => absurd hcon hsem⟩
      rintro ⟨msg, hmsg⟩
      exact Except.noConfusion hmsg
  · intro t id so eo c hfind hne
    have hck : checkClipRangeValid t.overlaps id c.start
        (Clip.stop { c with startOffset := so, endOffset := eo }) =
        checkClipRangeValid t.overlaps id c.start (c.start + (c.srcDur - so - eo)) := by
      simp [Clip.stop, Clip.length]
    cases hc : checkClipRangeValid t.overlaps id c.start (c.start + (c.srcDur - so - eo)) with
    | false =>
      have hsem := checkClipRangeValid_eq_false.mp hc
      simp only [changeClipRange, hfind, if_neg hne, hck, hc, Bool.not_false, if_true]
      exact ⟨fun _ => hsem, fun _ => ⟨_, rfl⟩⟩
    | true =>
      have hsem : ¬ endpointInsideForeignOverlap t.overlaps id c.start
          (c.start + (c.srcDur - so - eo)) := by
        intro hcon
        rw [checkClipRangeValid_eq_false.mpr hcon] at hc
        cases hc
      simp only [changeClipRange, hfind, if_neg hne, hck, hc, Bool.not_true, if_false]
      refine ⟨?_, fun hcon => absurd hcon hsem⟩
      rintro ⟨msg, hmsg⟩
      exact Except.noConfusion hmsg

/-- Witness for `clip_mutations_reject_foreign_overlap_endpoints`: inserting
a clip whose start `95` falls strictly inside the foreign overlap `(90,100)`
is rejected with the invalid-argument error. -/
theorem clip_mutations_reject_witness :
    ∃ msg, insertClip
      ⟨1, [⟨10, 1, 0, 100, 0, 0⟩, ⟨11, 1, 90, 110, 0, 0⟩], [⟨11, 10, 90, 100⟩], 200⟩
      ⟨12, 0, 95, 100, 0, 0⟩ = Except.error msg :=
  (clip_mutations_reject_foreign_overlap_endpoints.1
    ⟨1, [⟨10, 1, 0, 100, 0, 0⟩, ⟨11, 1, 90, 110, 0, 0⟩], [⟨11, 10, 90, 100⟩], 200⟩
    ⟨12, 0, 95, 100, 0, 0⟩).mpr
    ⟨⟨11, 10, 90, 100⟩, by decide, by decide, by decide⟩

end DataLayer

namespace DataLayer

theorem tdiv_le_tdiv_right {a b n : Int} (hn : 0 < n) (h : a ≤ b) :
    a.tdiv n ≤ b.tdiv n := by
  rcases le_or_lt 0 a with ha | ha
  · have hb : 0 ≤ b := le_trans ha h
    rw [Int.tdiv_eq_ediv ha (le_of_lt hn), Int.tdiv_eq_ediv hb (le_of_lt hn)]
    exact Int.ediv_le_ediv hn h
  · rcases le_or_lt 0 b with hb | hb
    · have h1 : 0 ≤ (-a).tdiv n := Int.tdiv_nonneg (by omega) (le_of_lt hn)
      have h2 : 0 ≤ b.tdiv n := Int.tdiv_nonneg hb (le_of_lt hn)
      have h3 := Int.neg_tdiv a n
      omega
    · have h2 : (0 : Int) ≤ -b := by omega
      have h3 : (0 : Int) ≤ -a := by omega
      have h4 := Int.ediv_le_ediv hn (show -b ≤ -a by omega)
      rw [← Int.tdiv_eq_ediv h2 (le_of_lt hn), ← Int.tdiv_eq_ediv h3 (le_of_lt hn)] at h4
      have h5 := Int.neg_tdiv a n
      have h6 := Int.neg_tdiv b n
      omega

theorem readN_spec (t : TrackReadState) (k : Nat) :
    readN t k =
      { t with readFrames := if t.readForward then t.readFrames + k else t.readFrames - k } := by
  induction k with
  | zero => simp [readN]
  | succ n ih =>
    by_cases hf : t.readForward
    · simp only [readN, readVideoFrame, ih, hf, if_true]
      congr 1
      push_cast
      ring
    · simp only [readN, readVideoFrame, ih, hf, if_false]
      congr 1
      push_cast
      ring

/-- C7: over any run of consecutive `ReadVideoFrame` calls (no seek, no
direction change), the returned `time_stamp` values are non-decreasing in
forward direction and non-increasing in reverse. -/
theorem readVideoFrame_monotone (t : TrackReadState) (i j : Nat)
    (hnum : 0 < t.frNum) (hden : 0 < t.frDen) (hij : i ≤ j) :
    (t.readForward = true → tsAt t i ≤ tsAt t j) ∧
    (t.readForward = false → tsAt t j ≤ tsAt t i) := by
  have hmul : ∀ x y : Int, x ≤ y → x * 1000 * t.frDen ≤ y * 1000 * t.frDen := by
    intro x y hxy
    have h1 : x * 1000 ≤ y * 1000 :=
      mul_le_mul_of_nonneg_right hxy (by norm_num)
    exact mul_le_mul_of_nonneg_right h1 (le_of_lt hden)
  constructor <;> intro hf
  · have key : trackReadPos (readN t i) ≤ trackReadPos (readN t j) := by
      rw [readN_spec, readN_spec]
      simp only [trackReadPos, hf, if_true]
      apply tdiv_le_tdiv_right hnum
      apply hmul
      omega
    unfold tsAt readVideoFrame
    have : (trackReadPos (readN t i) : ℚ) ≤ (trackReadPos (readN t j) : ℚ) := by
      exact_mod_cast key
    exact (div_le_div_iff_of_pos_right (by norm_num)).mpr this
  · have key : trackReadPos (readN t j) ≤ trackReadPos (readN t i) := by
      rw [readN_spec, readN_spec]
      simp only [trackReadPos, hf, Bool.false_eq_true, if_false]
      apply tdiv_le_tdiv_right hnum
      apply hmul
      omega
    unfold tsAt readVideoFrame
    have : (trackReadPos (readN t j) : ℚ) ≤ (trackReadPos (readN t i) : ℚ) := by
      exact_mod_cast key
    exact (div_le_div_iff_of_pos_right (by norm_num)).mpr this

/-- Witness for `readVideoFrame_monotone`: four forward reads at 30 fps from
frame counter 0 produce non-decreasing timestamps. -/
theorem readVideoFrame_monotone_witness :
    tsAt ⟨0, true, 30, 1⟩ 0 ≤ tsAt ⟨0, true, 30, 1⟩ 3 :=
  (readVideoFrame_monotone ⟨0, true, 30, 1⟩ 0 3 (by decide) (by decide) (by decide)).1 rfl

end DataLayer

namespace MediaPlayer

theorem shrinkGo_length (t : ℚ) :
    ∀ (n : Nat) (l : List CFrame), l.length ≤ n + 48 →
      (shrinkGo t n l).length = min l.length 48
  | 0, l, h => by
    simp only [shrinkGo]
    omega
  | n + 1, l, h => by
    by_cases h48 : l.length ≤ 48
    · simp only [shrinkGo, if_pos h48]
      omega
    · by_cases hfar : |(l.headD dummyFrame).ts - t| > |(l.getLastD dummyFrame).ts - t|
      · simp only [shrinkGo, if_neg h48, if_pos hfar]
        rw [shrinkGo_length t n l.tail (by rw [List.length_tail]; omega)]
        rw [List.length_tail]
        omega
      · simp only [shrinkGo, if_neg h48, if_neg hfar]
        rw [shrinkGo_length t n l.dropLast (by rw [List.length_dropLast]; omega)]
        rw [List.length_dropLast]
        omega

theorem headD_cons_tail {l : List CFrame} (h : l ≠ []) :
    l.headD dummyFrame :: l.tail = l := by
  cases l with
  | nil => exact absurd rfl h
  | cons a as => rfl

theorem dropLast_append_getLastD {l : List CFrame} (h : l ≠ []) :
    l.dropLast ++ [l.getLastD dummyFrame] = l := by
  rw [List.getLastD_eq_getLast?, List.getLast?_eq_getLast l h]
  exact List.dropLast_append_getLast h

theorem shrinkGo_sub (t : ℚ) :
    ∀ (n : Nat) (l : List CFrame), ∃ pre suf, pre ++ shrinkGo t n l ++ suf = l
  | 0, l => ⟨[], [], by simp [shrinkGo]⟩
  | n + 1, l => by
    by_cases h48 : l.length ≤ 48
    · exact ⟨[], [], by simp [shrinkGo, if_pos h48]⟩
    · have hne : l ≠ [] := by
        intro hnil
        rw [hnil] at h48
        simp at h48
      by_cases hfar : |(l.headD dummyFrame).ts - t| > |(l.getLastD dummyFrame).ts - t|
      · obtain ⟨pre, suf, hps⟩ := shrinkGo_sub t n l.tail
        refine ⟨l.headD dummyFrame :: pre, suf, ?_⟩
        simp only [shrinkGo, if_neg h48, if_pos hfar]
        rw [List.cons_append, List.cons_append, hps, headD_cons_tail hne]
      · obtain ⟨pre, suf, hps⟩ := shrinkGo_sub t n l.dropLast
        refine ⟨pre, suf ++ [l.getLastD dummyFrame], ?_⟩
        simp only [shrinkGo, if_neg h48, if_neg hfar]
        rw [show pre ++ shrinkGo t n l.dropLast ++ (suf ++ [l.getLastD dummyFrame]) =
            (pre ++ shrinkGo t n l.dropLast ++ suf) ++ [l.getLastD dummyFrame] by
          simp [List.append_assoc]]
        rw [hps, dropLast_append_getLastD hne]

theorem shrinkGo_chain (t : ℚ) :
    ∀ (n : Nat) (l : List CFrame),
      Relation.ReflTransGen (ShrinkStep t) l (shrinkGo t n l)
  | 0, _ => Relation.ReflTransGen.refl
  | n + 1, l => by
    by_cases h48 : l.length ≤ 48
    · simp only [shrinkGo, if_pos h48]
      exact Relation.ReflTransGen.refl
    · by_cases hfar : |(l.headD dummyFrame).ts - t| > |(l.getLastD dummyFrame).ts - t|
      · simp only [shrinkGo, if_neg h48, if_pos hfar]
        exact Relation.ReflTransGen.head (ShrinkStep.front l (by omega) hfar)
          (shrinkGo_chain t n l.tail)
      · simp only [shrinkGo, if_neg h48, if_neg hfar]
        exact Relation.ReflTransGen.head (ShrinkStep.back l (by omega) (le_of_not_lt hfar))
          (shrinkGo_chain t n l.dropLast)

/-- C8: in the async-seek render task, when adding a frame makes the cache
hold more than 64 entries (i.e. a 64-entry cache takes one more), the cache
is shrunk back to exactly 48 entries; the retained cache is a contiguous
segment of the cache (entries strictly between the retained ends are never
removed); and the shrink is a sequence of single removals, each taken from
the end — earliest (front) or latest (back) — whose timestamp is farther
from the current seek target `currSeekPos/1000` (the front only when it is
strictly farther, per the source's tie-breaking). -/
theorem pushFrame_shrink_spec (currSeekPos : Int) (cache : List CFrame) (f : CFrame)
    (hlen : cache.length = 64) :
    (pushFrame currSeekPos cache f).length = 48 ∧
    (∃ pre suf, pre ++ pushFrame currSeekPos cache f ++ suf = cache ++ [f]) ∧
    Relation.ReflTransGen (ShrinkStep ((currSeekPos : ℚ) / 1000)) (cache ++ [f])
      (pushFrame currSeekPos cache f) := by
  have h65 : (cache ++ [f]).length = 65 := by
    rw [List.length_append, hlen]
    rfl
  have hgt : 64 < (cache ++ [f]).length := by omega
  simp only [pushFrame, if_pos hgt, shrinkCache]
  refine ⟨?_, shrinkGo_sub _ _ _, shrinkGo_chain _ _ _⟩
  rw [shrinkGo_length _ _ _ (by omega), h65]
  rfl

/-- Witness for `pushFrame_shrink_spec`: a full 64-frame cache (timestamps
0..63 s) takes one more frame while the seek target is 4.0 s. -/
theorem pushFrame_shrink_spec_witness :
    (pushFrame 4000 ((List.range 64).map (fun (i : Nat) => CFrame.mk (i : ℚ) i)) ⟨100, 64⟩).length = 48 ∧
    (∃ pre suf, pre ++ pushFrame 4000 ((List.range 64).map (fun (i : Nat) => CFrame.mk (i : ℚ) i)) ⟨100, 64⟩ ++ suf =
      ((List.range 64).map (fun (i : Nat) => CFrame.mk (i : ℚ) i)) ++ [⟨100, 64⟩]) ∧
    Relation.ReflTransGen (ShrinkStep ((4000 : ℚ) / 1000))
      (((List.range 64).map (fun (i : Nat) => CFrame.mk (i : ℚ) i)) ++ [⟨100, 64⟩])
      (pushFrame 4000 ((List.range 64).map (fun (i : Nat) => CFrame.mk (i : ℚ) i)) ⟨100, 64⟩) :=
  pushFrame_shrink_spec 4000 ((List.range 64).map (fun (i : Nat) => CFrame.mk (i : ℚ) i)) ⟨100, 64⟩
    (by rfl)

end MediaPlayer
